import Mathlib

namespace NugsDL

/-- Go strings are modelled as lists of characters. -/
abbrev GoStr := List Char

/-- Model of Go strings.Contains (substring containment). -/
def goContains (s sub : GoStr) : Bool := decide (sub <:+: s)

/-- Model of Go strings.HasSuffix. -/
def goHasSuffix (s suffix2 : GoStr) : Bool := decide (suffix2 <:+ s)

/-! ## Quality model (pkg/models types.go: type Quality) -/

/-- models.Quality: URL, Specs, Format, Extension. -/
structure Quality where
  url : GoStr
  specs : GoStr
  format : Int
  extension : GoStr
deriving DecidableEq, Repr

/-! ## Audio format fallback chain (models.TrackFallback) and the
    quality-negotiation loop of Processor.ProcessTrack. -/

/-- models.TrackFallback = map[int]int{1: 2, 2: 5, 3: 2, 4: 3}.
    A Go map read of a missing key yields the zero value 0, which is what
    ProcessTrack's unchecked read TrackFallback[wantFmt] produces once the
    chain is exhausted (e.g. at format 5, which has no entry). -/
def TrackFallback (f : Int) : Int :=
  if f = 1 then 2 else if f = 2 then 5 else if f = 3 then 2 else if f = 4 then 3 else 0

/-- downloader.GetTrackQual: first quality with the wanted Format, else nil. -/
def GetTrackQual (quals : List Quality) (wantFmt : Int) : Option Quality :=
  quals.find? (fun q => q.format == wantFmt)

/-- The quality-selection loop in Processor.ProcessTrack:
      for { chosenQual = GetTrackQual(quals, wantFmt); if chosenQual != nil break
            else wantFmt = TrackFallback[wantFmt] }
    The Go loop is unbounded; this model is fuel-indexed, `none` meaning the
    loop has not selected a quality within `fuel` iterations (for every fuel). -/
def selectQualLoop : Nat → List Quality → Int → Option Quality
  | 0, _, _ => none
  | fuel + 1, quals, wantFmt =>
    match GetTrackQual quals wantFmt with
    | some q => some q
    | none => selectQualLoop fuel quals (TrackFallback wantFmt)

/-- The trace of repeatedly applying TrackFallback k times from start
    (k+1 entries, starting with start itself). -/
def chainSteps (start : Int) : Nat → List Int
  | 0 => [start]
  | k + 1 => start :: chainSteps (TrackFallback start) k

/-- If every format in a TrackFallback-closed set fails to match, the
    ProcessTrack selection loop never selects, for any amount of fuel. -/
theorem selectQualLoop_none_of_closed (quals : List Quality) (s : List Int) :
    ∀ fuel start, start ∈ s → (∀ f ∈ s, TrackFallback f ∈ s) →
      (∀ f ∈ s, GetTrackQual quals f = none) →
      selectQualLoop fuel quals start = none := by
  intro fuel
  induction fuel with
  | zero => intro start _ _ _; rfl
  | succ n ih =>
    intro start hs hcl hnone
    have h1 : GetTrackQual quals start = none := hnone start hs
    simp only [selectQualLoop, h1]
    exact ih (TrackFallback start) (hcl start hs) hcl hnone

/-- C1: the claim as stated is false on the code. Starting from format 1 the
    chain visits only 1, 2, 5 and then the out-of-domain zero value 0 —
    format 3 is never reached within the claimed 4 steps (nor ever); and when
    no format along the chain matches the available set, negotiation does not
    terminate with a terminal failure: with only format 3 available and
    desired format 1, the ProcessTrack loop has made no choice after 100
    iterations (it cycles on formatId 0 forever). -/
theorem c1_counterexample :
    chainSteps 1 4 = [1, 2, 5, 0, 0] ∧
    (chainSteps 1 4).contains 3 = false ∧
    selectQualLoop 100 [⟨"u".data, "s".data, 3, ".flac".data⟩] 1 = none := by
  refine ⟨by decide, by decide, ?_⟩
  exact selectQualLoop_none_of_closed _ [1, 2, 5, 0] 100 1 (by decide) (by decide)
    (by decide)

/-- C1 (amended): the fallback chain is acyclic and exhausts in at most 4
    applications from any of the five defined audio formats (the trace ends at
    the sentinel 0 = missing-key zero value, and never revisits a defined
    format), but it does not connect every format to every other; and when no
    format along the chain is available, the ProcessTrack negotiation loop
    never terminates (for every fuel it has made no selection), rather than
    failing terminally — its "no track format was chosen" branch is
    unreachable. -/
theorem c1_amended :
    (∀ start ∈ ([1, 2, 3, 4, 5] : List Int),
      (chainSteps start 4).getLast? = some 0 ∧
      ((chainSteps start 4).filter (fun f => f ≠ 0)).Pairwise (· ≠ ·)) ∧
    (∀ (fuel : Nat) (quals : List Quality) (wantFmt : Int),
      wantFmt ∈ ([1, 2, 3, 4, 5] : List Int) →
      (∀ f ∈ chainSteps wantFmt 4, GetTrackQual quals f = none) →
      selectQualLoop fuel quals wantFmt = none) := by
  constructor
  · decide
  · intro fuel quals wantFmt hmem hnone
    fin_cases hmem
    · exact selectQualLoop_none_of_closed quals _ fuel 1 (by decide) (by decide) hnone
    · exact selectQualLoop_none_of_closed quals _ fuel 2 (by decide) (by decide) hnone
    · exact selectQualLoop_none_of_closed quals _ fuel 3 (by decide) (by decide) hnone
    · exact selectQualLoop_none_of_closed quals _ fuel 4 (by decide) (by decide) hnone
    · exact selectQualLoop_none_of_closed quals _ fuel 5 (by decide) (by decide) hnone

/-- Witness for c1_amended at concrete inputs. -/
theorem c1_amended_witness :
    (1 : Int) ∈ ([1, 2, 3, 4, 5] : List Int) ∧
    selectQualLoop 7 [] 1 = none :=
  ⟨by decide, c1_amended.2 7 [] 1 (by decide) (by decide)⟩

/-! ## C4: CheckIfHlsOnly (part_005 lines 791-798) -/

/-- downloader.CheckIfHlsOnly: false as soon as one quality URL does not
    contain ".m3u8?", true otherwise (the early-return loop is List.all). -/
def CheckIfHlsOnly (quals : List Quality) : Bool :=
  quals.all (fun q => goContains q.url ".m3u8?".data)

/-- C4: CheckIfHlsOnly is true iff every option's URL contains the manifest
    marker ".m3u8?"; and a single non-manifest option in the list forces
    false. -/
theorem c4_manifest_only :
    (∀ quals, CheckIfHlsOnly quals = true ↔ ∀ q ∈ quals, ".m3u8?".data <:+: q.url) ∧
    (∀ quals q, q ∈ quals → ¬ (".m3u8?".data <:+: q.url) →
      CheckIfHlsOnly quals = false) := by
  have hiff : ∀ quals, CheckIfHlsOnly quals = true ↔
      ∀ q ∈ quals, ".m3u8?".data <:+: q.url := by
    intro quals
    simp [CheckIfHlsOnly, goContains, List.all_eq_true]
  refine ⟨hiff, ?_⟩
  intro quals q hq hnot
  rcases h : CheckIfHlsOnly quals with _ | _
  · rfl
  · exact absurd ((hiff quals).mp h q hq) hnot

/-- Witness for c4_manifest_only: one plain URL among manifest URLs yields
    false. -/
theorem c4_manifest_only_witness :
    CheckIfHlsOnly
      [⟨"https://a/x.m3u8?t=1".data, [], 5, []⟩,
       ⟨"https://a/plain.flac".data, [], 2, []⟩] = false :=
  c4_manifest_only.2 _ ⟨"https://a/plain.flac".data, [], 2, []⟩ (by decide) (by decide)

/-! ## Resume state store (part_006) -/

/-- SegmentState (part_006): per-livestream-chunk state. -/
structure SegmentState where
  index : Int
  url : GoStr
  size : Int
  checksum : GoStr
  completed : Bool
deriving DecidableEq, Repr

/-- ResumeState (part_006). time.Time values are modelled as integer
    nanoseconds since the epoch. -/
structure ResumeState where
  filePath : GoStr
  url : GoStr
  totalSize : Int
  downloadedSize : Int
  lastModified : Int
  etag : GoStr
  checksum : GoStr
  segments : List SegmentState
  createdAt : Int
  updatedAt : Int
deriving DecidableEq, Repr

/-- Outcome of os.Stat on the partial file in ValidatePartialDownload:
    success with a size, a not-exists error, or another stat error. -/
inductive StatOutcome
  | statOk (size : Int)
  | notExists
  | statFailed
deriving DecidableEq, Repr

/-- Twenty-four hours (24 * time.Hour) in nanoseconds. -/
def hours24 : Int := 24 * 3600 * 1000000000

/-- ResumeManager.ValidatePartialDownload (part_006 lines 118-141): stat the
    partial file; reject if missing or stat fails; reject if the size differs
    from state.DownloadedSize; reject if time.Since(state.UpdatedAt) exceeds
    24 hours. `some msg` is the returned error, `none` is success. -/
def ValidatePartialDownload (stat : StatOutcome) (now : Int)
    (state : ResumeState) : Option GoStr :=
  match stat with
  | .notExists => some "partial file no longer exists".data
  | .statFailed => some "failed to stat partial file".data
  | .statOk size =>
    if size ≠ state.downloadedSize then some "file size mismatch".data
    else if now - state.updatedAt > hours24 then some "resume state is too old".data
    else none

/-- C6: resume validation rejects on any actual-size mismatch regardless of
    age, and rejects any state older than 24 hours regardless of size (a
    missing or unreadable partial file is likewise rejected). -/
theorem c6_resume_validation :
    (∀ stat now state size, stat = StatOutcome.statOk size →
      size ≠ state.downloadedSize →
      (ValidatePartialDownload stat now state).isSome = true) ∧
    (∀ stat now state, now - state.updatedAt > hours24 →
      (ValidatePartialDownload stat now state).isSome = true) := by
  constructor
  · intro stat now state size hstat hne
    subst hstat
    simp [ValidatePartialDownload, hne]
  · intro stat now state hage
    cases stat with
    | statOk size =>
      by_cases hsz : size ≠ state.downloadedSize <;>
        simp [ValidatePartialDownload, hsz, hage]
    | notExists => rfl
    | statFailed => rfl

/-- Witness for c6_resume_validation at concrete inputs: size 5 vs recorded 7
    is rejected even when fresh, and a 25-hour-old state is rejected even with
    matching size. -/
theorem c6_resume_validation_witness :
    (ValidatePartialDownload (StatOutcome.statOk 5) 0
      { filePath := [], url := [], totalSize := 9, downloadedSize := 7,
        lastModified := 0, etag := [], checksum := [], segments := [],
        createdAt := 0, updatedAt := 0 }).isSome = true ∧
    (ValidatePartialDownload (StatOutcome.statOk 7) (25 * 3600 * 1000000000)
      { filePath := [], url := [], totalSize := 9, downloadedSize := 7,
        lastModified := 0, etag := [], checksum := [], segments := [],
        createdAt := 0, updatedAt := 0 }).isSome = true :=
  ⟨c6_resume_validation.1 _ 0 _ 5 rfl (by decide),
   c6_resume_validation.2 _ (25 * 3600 * 1000000000) _ (by decide)⟩

/-- ResumeManager (part_006): holds the state directory. -/
structure ResumeManager where
  stateDir : GoStr
deriving DecidableEq, Repr

/-- The on-disk state directory, modelled as an association list from state
    file name to the ResumeState whose JSON that file holds. encoding/json
    marshal followed by unmarshal is assumed faithful on ResumeState (an
    external library contract; time.Time round-trips via RFC3339-nano), and
    SaveState's temp-file-plus-rename write collapses to one store update. -/
abbrev StateStore := List (GoStr × ResumeState)

/-- ResumeManager.getStateFilePath: stateDir joined with the MD5 hex digest of
    the target file path plus ".resume.json". MD5 (crypto/md5, an external
    primitive) is taken as a parameter. -/
def getStateFilePath (md5hex : GoStr → GoStr) (rm : ResumeManager)
    (filePath : GoStr) : GoStr :=
  rm.stateDir ++ "/".data ++ md5hex filePath ++ ".resume.json".data

/-- ResumeManager.SaveState (part_006 lines 59-86): sets state.UpdatedAt to
    the current time, marshals the state and writes it (atomically) under the
    hashed file name. Returns the updated store and the mutated state. -/
def SaveState (md5hex : GoStr → GoStr) (rm : ResumeManager) (store : StateStore)
    (now : Int) (state : ResumeState) : StateStore × ResumeState :=
  let st := { state with updatedAt := now }
  ((getStateFilePath md5hex rm state.filePath, st) :: store, st)

/-- ResumeManager.LoadState (part_006 lines 89-106): reads and unmarshals the
    state file for the hashed path; none when no state file exists. -/
def LoadState (md5hex : GoStr → GoStr) (rm : ResumeManager) (store : StateStore)
    (filePath : GoStr) : Option ResumeState :=
  store.lookup (getStateFilePath md5hex rm filePath)

/-- C8: SaveState followed by LoadState of the same target path returns the
    saved state — equal to the input in every field except updatedAt, which is
    refreshed to the save time — with both operations keyed by the content
    hash of the target path. -/
theorem c8_save_load_roundtrip (md5hex : GoStr → GoStr) (rm : ResumeManager)
    (store : StateStore) (now : Int) (state : ResumeState) :
    LoadState md5hex rm (SaveState md5hex rm store now state).1 state.filePath =
      some { state with updatedAt := now } := by
  simp [LoadState, SaveState, List.lookup]

/-! ## C9: GetManifestBase (part_005 lines 827-836) -/

/-- Index of the last occurrence of c, as strings.LastIndex does; none models
    Go's -1 sentinel. -/
def goLastIndexChar (c : Char) : GoStr → Option Nat
  | [] => none
  | a :: rest =>
    match goLastIndexChar c rest with
    | some r => some (r + 1)
    | none => if a = c then some 0 else none

/-- The Go slice bound path[:lastPathIdx+1] used by GetManifestBase:
    lastIndex + 1, or 0 when there is no slash (Go's -1 + 1). -/
def slashBound (path : GoStr) : Nat :=
  match goLastIndexChar '/' path with
  | some k => k + 1
  | none => 0

/-- Parsed URL components (net/url.URL restricted to the fields
    GetManifestBase reads: Scheme, Host, Path, RawQuery). -/
structure URLParts where
  scheme : GoStr
  host : GoStr
  path : GoStr
  rawQuery : GoStr
deriving DecidableEq, Repr

/-- Split at the first occurrence of c: (before, after), none if c absent. -/
def splitFirst (c : Char) : GoStr → Option (GoStr × GoStr)
  | [] => none
  | a :: rest =>
    if a = c then some ([], rest)
    else
      match splitFirst c rest with
      | some (l, r) => some (a :: l, r)
      | none => none

/-- Model of net/url.Parse restricted to absolute URLs of the shape
    scheme://host/path?query with no escaping, fragment or userinfo — the
    class of manifest URLs GetManifestBase receives. Scheme is what precedes
    the first colon (followed by //), host runs to the first slash or question
    mark, path to the first question mark, raw query is the remainder. -/
def parseUrl (s : GoStr) : Option URLParts :=
  match splitFirst ':' s with
  | none => none
  | some (scheme, rest) =>
    match rest with
    | '/' :: '/' :: hm =>
      let host := hm.takeWhile (fun a => a != '/' && a != '?')
      let after := hm.dropWhile (fun a => a != '/' && a != '?')
      match splitFirst '?' after with
      | some (p, q) => some ⟨scheme, host, p, q⟩
      | none => some ⟨scheme, host, after, []⟩
    | _ => none

/-- The computation GetManifestBase performs on the parsed URL:
    base = u.Scheme + "://" + u.Host + path[:lastIndex(path,"/")+1],
    query = "?" + u.RawQuery. -/
def GetManifestBaseParts (u : URLParts) : GoStr × GoStr :=
  (u.scheme ++ "://".data ++ u.host ++ u.path.take (slashBound u.path),
   '?' :: u.rawQuery)

/-- downloader.GetManifestBase: parse the URL, then decompose as above.
    none models the parse-error return. -/
def GetManifestBase (manifestUrl : GoStr) : Option (GoStr × GoStr) :=
  match parseUrl manifestUrl with
  | none => none
  | some u => some (GetManifestBaseParts u)

/-- When goLastIndexChar finds nothing, the character is absent. -/
theorem goLastIndexChar_none {c : Char} :
    ∀ {l : GoStr}, goLastIndexChar c l = none → c ∉ l := by
  intro l
  induction l with
  | nil => intro _ h; cases h
  | cons a rest ih =>
    intro h
    simp only [goLastIndexChar] at h
    rcases hr : goLastIndexChar c rest with _ | r
    · rw [hr] at h
      by_cases hac : a = c
      · simp [hac] at h
      · intro hmem
        rcases List.mem_cons.mp hmem with h1 | h2
        · exact hac h1.symm
        · exact ih hr h2
    · rw [hr] at h
      cases h

/-- The tail beyond the slash bound holds no slash, and the kept part is
    either empty or ends in a slash. -/
theorem slashBound_spec : ∀ path : GoStr,
    '/' ∉ path.drop (slashBound path) ∧
    (slashBound path = 0 ∨ ∃ t, path.take (slashBound path) = t ++ ['/']) := by
  intro path
  induction path with
  | nil => exact ⟨by simp [slashBound, goLastIndexChar], Or.inl rfl⟩
  | cons a rest ih =>
    rcases hr : goLastIndexChar '/' rest with _ | r
    · by_cases ha : a = '/'
      · have hb : slashBound (a :: rest) = 1 := by
          simp [slashBound, goLastIndexChar, hr, ha]
        refine ⟨?_, Or.inr ⟨[], ?_⟩⟩
        · rw [hb]
          simpa using goLastIndexChar_none hr
        · rw [hb]
          simp [ha]
      · have hb : slashBound (a :: rest) = 0 := by
          simp [slashBound, goLastIndexChar, hr, ha]
        refine ⟨?_, Or.inl hb⟩
        rw [hb]
        intro hmem
        rcases List.mem_cons.mp hmem with h1 | h2
        · exact ha h1.symm
        · exact goLastIndexChar_none hr h2
    · have hb : slashBound (a :: rest) = (r + 1) + 1 := by
        simp [slashBound, goLastIndexChar, hr]
      have hbr : slashBound rest = r + 1 := by simp [slashBound, hr]
      rcases ih with ⟨ihd, iht⟩
      refine ⟨?_, ?_⟩
      · rw [hb]
        simpa using (hbr ▸ ihd)
      · rcases iht with h0 | ⟨t, ht⟩
        · rw [hbr] at h0; cases h0
        · refine Or.inr ⟨a :: t, ?_⟩
          rw [hb]
          simp only [List.take_succ_cons]
          rw [hbr] at ht
          rw [ht]
          rfl

/-- C9: GetManifestBase on https://h/a/b/manifest.m3u8?x=1 yields base
    https://h/a/b/ and query ?x=1; in general the base is
    scheme://host plus the path truncated just past its last slash (the
    removed remainder holds no slash, and the kept path part is empty or ends
    in a slash), and the query is "?" prepended to the raw query. -/
theorem c9_manifest_base :
    GetManifestBase "https://h/a/b/manifest.m3u8?x=1".data =
      some ("https://h/a/b/".data, "?x=1".data) ∧
    (∀ u : URLParts,
      (GetManifestBaseParts u).1 ++ u.path.drop (slashBound u.path) =
        u.scheme ++ "://".data ++ u.host ++ u.path ∧
      '/' ∉ u.path.drop (slashBound u.path) ∧
      (u.path.take (slashBound u.path) = [] ∨
        ∃ t, u.path.take (slashBound u.path) = t ++ ['/']) ∧
      (GetManifestBaseParts u).2 = '?' :: u.rawQuery) := by
  constructor
  · decide
  · intro u
    refine ⟨?_, (slashBound_spec u.path).1, ?_, rfl⟩
    · simp [GetManifestBaseParts, List.append_assoc, List.take_append_drop]
    · rcases (slashBound_spec u.path).2 with h0 | ht
      · exact Or.inl (by simp [h0])
      · exact Or.inr ht

/-! ## ChooseVariant (part_005 lines 856-903) and the master-manifest sort -/

/-- m3u8.Variant restricted to the fields ChooseVariant reads. -/
structure Variant where
  uri : GoStr
  bandwidth : Nat
  resolution : GoStr
deriving DecidableEq, Repr

/-- The contract of Go's sort.Slice with less(x, y) =
    Variants[x].Bandwidth > Variants[y].Bandwidth (part_005 lines 866-868):
    the slice afterwards is a permutation of the input that is non-increasing
    in bandwidth. sort.Slice is documented as not stable, so which such
    permutation results is not determined by this repository's source; the
    relation admits every output the library may produce. -/
def SortSliceDesc (input output : List Variant) : Prop :=
  input.Perm output ∧ output.Sorted (fun a b => b.bandwidth ≤ a.bandwidth)

/-- Modelled from the spec: insertion step of the stable
    descending-by-bandwidth sort the spec mandates (ties broken by original
    order). -/
def insertByBandwidthDesc (v : Variant) : List Variant → List Variant
  | [] => [v]
  | w :: ws =>
    if v.bandwidth < w.bandwidth then w :: insertByBandwidthDesc v ws
    else v :: w :: ws

/-- Modelled from the spec: the stable descending-by-bandwidth sort itself
    (stable insertion sort; an earlier element precedes every tied later
    one). -/
def specStableSortDesc (l : List Variant) : List Variant :=
  l.foldr insertByBandwidthDesc []

/-- models.ResFallback = map[string]string{720: 480, 1080: 720, 1440: 1080},
    as the association list its lookups see. -/
def ResFallback : List (GoStr × GoStr) :=
  [("720".data, "480".data), ("1080".data, "720".data), ("1440".data, "1080".data)]

/-- downloader.getVidVariant: first variant whose Resolution ends in
    "x" + wantRes. -/
def getVidVariant (variants : List Variant) (wantRes : GoStr) : Option Variant :=
  variants.find? (fun v => goHasSuffix v.resolution ('x' :: wantRes))

/-- downloader.formatRes: "2160" displays as 4K, anything else as res + "p". -/
def formatRes (res : GoStr) : GoStr :=
  if res = "2160".data then "4K".data else res ++ "p".data

/-- Result of ChooseVariant. panicked models a Go runtime panic (index out of
    range on Variants[0] or on SplitN(Resolution, "x", 2)[1]); outOfFuel means
    the unbounded Go fallback loop was modelled with too little fuel. -/
inductive ChooseResult
  | chosen (v : Variant) (res : GoStr)
  | noVariant
  | panicked
  | outOfFuel
deriving DecidableEq, Repr

/-- The resolution-fallback loop of ChooseVariant:
      for { wantVariant = getVidVariant(variants, wantRes); if found break
            else if fb, ok := ResFallback[wantRes]; ok { wantRes = fb } else break }
    some (found?, final wantRes) is a normal exit; none is fuel exhaustion. -/
def resFallbackLoop (table : List (GoStr × GoStr)) (variants : List Variant) :
    Nat → GoStr → Option (Option Variant × GoStr)
  | 0, _ => none
  | fuel + 1, wantRes =>
    match getVidVariant variants wantRes with
    | some v => some (some v, wantRes)
    | none =>
      match table.lookup wantRes with
      | some fb => resFallbackLoop table variants fuel fb
      | none => some (none, wantRes)

/-- The deterministic tail of ChooseVariant, applied to the slice as it stands
    after sort.Slice: for "2160" take Variants[0] and the part of its
    resolution after the first x; otherwise run the ResFallback loop, and an
    exhausted chain without a match is the "No variant was chosen." error. -/
def chooseVariantSorted (table : List (GoStr × GoStr)) (fuel : Nat)
    (sortedVariants : List Variant) (wantRes : GoStr) : ChooseResult :=
  if wantRes = "2160".data then
    match sortedVariants with
    | [] => .panicked
    | v :: _ =>
      match splitFirst 'x' v.resolution with
      | some (_, r) => .chosen v (formatRes r)
      | none => .panicked
  else
    match resFallbackLoop table sortedVariants fuel wantRes with
    | none => .outOfFuel
    | some (some v, finalRes) => .chosen v (formatRes finalRes)
    | some (none, _) => .noVariant

/-- ChooseVariant as a relation over the fetched variant list: sort.Slice may
    yield any output within its contract, after which the tail is
    deterministic. -/
def ChooseVariantRel (table : List (GoStr × GoStr)) (fuel : Nat)
    (variants : List Variant) (wantRes : GoStr) (r : ChooseResult) : Prop :=
  ∃ sorted, SortSliceDesc variants sorted ∧
    r = chooseVariantSorted table fuel sorted wantRes

/-- Two tied-bandwidth variants used to exhibit instability. -/
def vA : Variant := ⟨"a".data, 5000, "640x480".data⟩

/-- Second tied variant, distinct from vA. -/
def vB : Variant := ⟨"b".data, 5000, "842x480".data⟩

/-- C5: the claim's stability assertion is false on the code. For the
    tied-bandwidth input [vA, vB], the sort step's contract admits the output
    [vB, vA], which differs from the spec-mandated stable descending sort
    [vA, vB]; consequently variant selection at resolution 480 may return
    either vA or vB for the same input. -/
theorem c5_counterexample :
    SortSliceDesc [vA, vB] [vB, vA] ∧
    specStableSortDesc [vA, vB] = [vA, vB] ∧
    ([vB, vA] : List Variant) ≠ [vA, vB] ∧
    ChooseVariantRel ResFallback 4 [vA, vB] "480".data
      (ChooseResult.chosen vA "480p".data) ∧
    ChooseVariantRel ResFallback 4 [vA, vB] "480".data
      (ChooseResult.chosen vB "480p".data) ∧
    vA ≠ vB := by
  refine ⟨⟨List.Perm.swap vB vA [], by decide⟩, by decide, by decide, ?_, ?_, by decide⟩
  · exact ⟨[vA, vB], ⟨List.Perm.refl _, by decide⟩, by decide⟩
  · exact ⟨[vB, vA], ⟨List.Perm.swap vB vA [], by decide⟩, by decide⟩

/-- C5 (amended): after the sort step the variant list is non-increasing in
    bandwidth (the sort is not stable, so tie order is unspecified), and for
    desired resolution "2160" ChooseVariant returns the post-sort first
    element — whatever the fallback table holds — with its displayed
    resolution taken after the first x of that variant's resolution (an
    x-free resolution or an empty variant list panics). -/
theorem c5_amended (table : List (GoStr × GoStr)) (fuel : Nat)
    (variants sorted : List Variant) (v : Variant) (rest : List Variant)
    (hs : SortSliceDesc variants sorted) (hv : sorted = v :: rest) :
    sorted.Sorted (fun a b => b.bandwidth ≤ a.bandwidth) ∧
    chooseVariantSorted table fuel sorted "2160".data =
      (match splitFirst 'x' v.resolution with
       | some (_, r) => ChooseResult.chosen v (formatRes r)
       | none => ChooseResult.panicked) := by
  refine ⟨hs.2, ?_⟩
  subst hv
  rfl

/-- Witness for c5_amended at a concrete sorted singleton. -/
theorem c5_amended_witness :
    chooseVariantSorted [] 1 [vA] "2160".data =
      ChooseResult.chosen vA "480p".data :=
  (c5_amended [] 1 [vA] [vA] vA [] ⟨List.Perm.refl _, by decide⟩ rfl).2

/-- The four resolution tiers of the fallback chain. -/
def resTiers : List GoStr := ["1440".data, "1080".data, "720".data, "480".data]

/-- When no variant carries a tier resolution, getVidVariant finds nothing. -/
theorem getVidVariant_none {variants : List Variant} {wantRes : GoStr}
    (h : ∀ v ∈ variants, ¬ ('x' :: wantRes) <:+ v.resolution) :
    getVidVariant variants wantRes = none := by
  apply List.find?_eq_none.mpr
  intro v hv
  simp only [goHasSuffix, decide_eq_true_eq]
  exact h v hv

/-- C7: with none of the four tiers present among the variants, the
    resolution-fallback traversal from any tier terminates (4 loop iterations
    suffice for every larger fuel) in the hard "No variant was chosen."
    failure, whichever sort.Slice output the selection ran on. -/
theorem c7_res_fallback_exhaustion (fuel : Nat) (variants : List Variant)
    (wantRes : GoStr) (r : ChooseResult) (hfuel : 4 ≤ fuel)
    (hres : wantRes ∈ resTiers)
    (hnone : ∀ v ∈ variants, ∀ t ∈ resTiers, ¬ ('x' :: t) <:+ v.resolution)
    (hrel : ChooseVariantRel ResFallback fuel variants wantRes r) :
    r = ChooseResult.noVariant := by
  obtain ⟨sorted, ⟨hperm, _⟩, hr⟩ := hrel
  have hnone' : ∀ v ∈ sorted, ∀ t ∈ resTiers, ¬ ('x' :: t) <:+ v.resolution :=
    fun v hv => hnone v (hperm.mem_iff.mpr hv)
  have g : ∀ t ∈ resTiers, getVidVariant sorted t = none := by
    intro t ht
    exact getVidVariant_none (fun v hv => hnone' v hv t ht)
  have g1440 := g "1440".data (by decide)
  have g1080 := g "1080".data (by decide)
  have g720 := g "720".data (by decide)
  have g480 := g "480".data (by decide)
  obtain ⟨k, hk⟩ := Nat.exists_eq_add_of_le hfuel
  subst hk
  have loop480 : ∀ m, resFallbackLoop ResFallback sorted (m + 1) "480".data =
      some (none, "480".data) := by
    intro m
    simp [resFallbackLoop, g480]
    rfl
  have loop720 : ∀ m, resFallbackLoop ResFallback sorted (m + 2) "720".data =
      some (none, "480".data) := by
    intro m
    have : ResFallback.lookup "720".data = some "480".data := rfl
    simp only [resFallbackLoop, g720, this]
    exact loop480 m
  have loop1080 : ∀ m, resFallbackLoop ResFallback sorted (m + 3) "1080".data =
      some (none, "480".data) := by
    intro m
    have : ResFallback.lookup "1080".data = some "720".data := rfl
    simp only [resFallbackLoop, g1080, this]
    exact loop720 m
  have loop1440 : ∀ m, resFallbackLoop ResFallback sorted (m + 4) "1440".data =
      some (none, "480".data) := by
    intro m
    have : ResFallback.lookup "1440".data = some "1080".data := rfl
    simp only [resFallbackLoop, g1440, this]
    exact loop1080 m
  have harith : 4 + k = k + 4 := Nat.add_comm 4 k
  fin_cases hres
  · rw [hr]
    simp only [chooseVariantSorted]
    rw [if_neg (by decide), harith, loop1440 k]
  · rw [hr]
    simp only [chooseVariantSorted]
    rw [if_neg (by decide), harith]
    have h4 : k + 4 = (k + 1) + 3 := by omega
    rw [h4, loop1080 (k + 1)]
  · rw [hr]
    simp only [chooseVariantSorted]
    rw [if_neg (by decide), harith]
    have h4 : k + 4 = (k + 2) + 2 := by omega
    rw [h4, loop720 (k + 2)]
  · rw [hr]
    simp only [chooseVariantSorted]
    rw [if_neg (by decide), harith]
    have h4 : k + 4 = (k + 3) + 1 := by omega
    rw [h4, loop480 (k + 3)]

/-- Witness for c7_res_fallback_exhaustion: a lone 2160-tier variant set
    matches no tier, so selection from "1440" ends in the hard failure. -/
theorem c7_res_fallback_exhaustion_witness :
    chooseVariantSorted ResFallback 4 [⟨"u".data, 9000, "3840x2160".data⟩]
      "1440".data = ChooseResult.noVariant :=
  c7_res_fallback_exhaustion 4 [⟨"u".data, 9000, "3840x2160".data⟩]
    "1440".data _ (by decide) (by decide) (by decide)
    ⟨[⟨"u".data, 9000, "3840x2160".data⟩], ⟨List.Perm.refl _, by decide⟩, rfl⟩

/-! ## C3: downloadFileWithRetry (part_005 lines 1556-1590) -/

/-- Errors apiClient.DownloadFile can produce: a value whose dynamic type
    implements net.Error (the assertion err.(net.Error) succeeds — including
    every *url.Error, which also implements it), or a plain error such as
    errors.New(resp.Status) on a non-success HTTP status. -/
inductive DlError
  | netError (timeout temporary : Bool)
  | urlError (timeout temporary : Bool)
  | plain (msg : GoStr)
deriving DecidableEq, Repr

/-- Whether the loop body breaks out: err.(net.Error) succeeds for netError
    and urlError values and breaks when neither Timeout nor Temporary; the
    source's else-if *url.Error arm is unreachable (a *url.Error always
    satisfies the first assertion), and a plain error matches neither arm, so
    the body falls through and the loop continues to the next attempt. -/
def breaksRetryLoop : DlError → Bool
  | .netError t tmp => !t && !tmp
  | .urlError t tmp => !t && !tmp
  | .plain _ => false

/-- maxRetries (downloadFileWithRetry). -/
def maxRetries : Nat := 3

/-- baseDelay = time.Second, measured here in seconds. -/
def baseDelay : Nat := 1

/-- What one run of the retry loop did: the response if any, how many
    attempts were made, and the backoff delays slept (in seconds, in order:
    attempt n > 0 sleeps n * baseDelay before issuing its request). -/
structure RetryTrace (α : Type) where
  result : Option α
  attempts : Nat
  delays : List Nat
deriving DecidableEq, Repr

/-- The for-loop of downloadFileWithRetry: `attempt` is the loop index,
    `remaining` = maxRetries - attempt counts iterations still allowed.
    outcome gives each attempt's DownloadFile result. -/
def retryLoop (outcome : Nat → Except DlError α) :
    Nat → Nat → RetryTrace α
  | _, 0 => ⟨none, 0, []⟩
  | attempt, remaining + 1 =>
    let ds : List Nat := match attempt with
      | 0 => []
      | k + 1 => [(k + 1) * baseDelay]
    match outcome attempt with
    | .ok a => ⟨some a, 1, ds⟩
    | .error e =>
      if breaksRetryLoop e then ⟨none, 1, ds⟩
      else
        let t := retryLoop outcome (attempt + 1) remaining
        ⟨t.result, t.attempts + 1, ds ++ t.delays⟩

/-- downloader.downloadFileWithRetry: run the loop from attempt 0 with the
    maxRetries budget (result none means the ErrNetwork
    "Download failed after retries" error is returned). -/
def downloadFileWithRetry (outcome : Nat → Except DlError α) : RetryTrace α :=
  retryLoop outcome 0 maxRetries

/-- The attempt count never exceeds the remaining budget. -/
theorem retryLoop_attempts_le (outcome : Nat → Except DlError α) :
    ∀ remaining attempt,
      (retryLoop outcome attempt remaining).attempts ≤ remaining := by
  intro remaining
  induction remaining with
  | zero => intro _; exact Nat.le_refl 0
  | succ n ih =>
    intro attempt
    simp only [retryLoop]
    cases outcome attempt with
    | ok a => exact Nat.succ_le_succ (Nat.zero_le n)
    | error e =>
      cases hb : breaksRetryLoop e with
      | true =>
        simp only [hb]
        rw [if_pos trivial]
        exact Nat.succ_le_succ (Nat.zero_le n)
      | false =>
        simp only [hb, Bool.false_eq_true]
        rw [if_neg not_false]
        exact Nat.succ_le_succ (ih (attempt + 1))

/-- From attempt a ≥ 1 on, every iteration sleeps, and the delays are
    (a + i) * baseDelay for i = 0, 1, ... in order. -/
theorem retryLoop_delays_from (outcome : Nat → Except DlError α) :
    ∀ remaining a, 1 ≤ a →
      (retryLoop outcome a remaining).delays =
        List.map (fun i => (a + i) * baseDelay)
          (List.range (retryLoop outcome a remaining).attempts) := by
  intro remaining
  induction remaining with
  | zero => intro a _; rfl
  | succ n ih =>
    intro a ha
    obtain ⟨b, rfl⟩ : ∃ b, a = b + 1 := ⟨a - 1, by omega⟩
    simp only [retryLoop]
    cases outcome (b + 1) with
    | ok x => simp [List.range_succ]
    | error e =>
      cases hbe : breaksRetryLoop e with
      | true => simp [hbe, List.range_succ]
      | false =>
        simp only [hbe, Bool.false_eq_true, if_false]
        have hrec := ih (b + 1 + 1) (by omega)
        rw [hrec, List.range_succ_eq_map, List.map_cons, List.map_map,
          List.singleton_append]
        have hfun : ((fun i => (b + 1 + i) * baseDelay) ∘ Nat.succ) =
            (fun i => (b + 1 + 1 + i) * baseDelay) := by
          funext i
          simp only [Function.comp_apply]
          have h2 : b + 1 + Nat.succ i = b + 1 + 1 + i := by omega
          rw [h2]
        rw [hfun]

/-- Started at attempt 0 (where no sleep happens), the delays are
    (i + 1) * baseDelay for the attempts - 1 retries, in order. -/
theorem retryLoop_delays_zero (outcome : Nat → Except DlError α) (rem : Nat) :
    (retryLoop outcome 0 (rem + 1)).delays =
      List.map (fun i => (i + 1) * baseDelay)
        (List.range ((retryLoop outcome 0 (rem + 1)).attempts - 1)) := by
  simp only [retryLoop]
  cases outcome 0 with
  | ok x => simp
  | error e =>
    cases hbe : breaksRetryLoop e with
    | true => simp [hbe]
    | false =>
      simp only [hbe, Bool.false_eq_true, if_false, List.nil_append,
        Nat.add_sub_cancel]
      rw [retryLoop_delays_from outcome rem 1 (Nat.le_refl 1)]
      apply List.map_congr_left
      intro i _
      have h1 : 1 + i = i + 1 := Nat.add_comm 1 i
      rw [h1]

/-- C3: the claim as stated is false on the code. A plain HTTP-status error
    ("404 Not Found") is non-transient and implements neither net.Error arm,
    yet the engine does not abort: it makes all 3 attempts (sleeping 1 s and
    2 s in between) before giving up. -/
theorem c3_counterexample :
    breaksRetryLoop (DlError.plain "404 Not Found".data) = false ∧
    downloadFileWithRetry
        (fun _ => (Except.error (DlError.plain "404 Not Found".data) :
          Except DlError Nat)) =
      ⟨none, 3, [1, 2]⟩ := by
  constructor
  · rfl
  · rfl

/-- C3 (amended): the engine makes at most 3 attempts with linearly
    increasing backoff ((i+1) * baseDelay before retry i+1); it aborts after
    the first attempt exactly when that attempt's error is a net.Error that is
    neither a timeout nor temporary; timeouts, temporary errors AND errors
    implementing neither interface (e.g. plain HTTP-status errors) are all
    retried to the full ceiling. -/
theorem c3_amended :
    (∀ (α : Type) (outcome : Nat → Except DlError α),
      (downloadFileWithRetry outcome).attempts ≤ maxRetries) ∧
    (∀ (α : Type) (outcome : Nat → Except DlError α),
      (downloadFileWithRetry outcome).delays =
        List.map (fun i => (i + 1) * baseDelay)
          (List.range ((downloadFileWithRetry outcome).attempts - 1))) ∧
    (∀ (α : Type) (outcome : Nat → Except DlError α) (e : DlError),
      outcome 0 = Except.error e → breaksRetryLoop e = true →
      downloadFileWithRetry outcome = ⟨none, 1, []⟩) ∧
    (∀ (α : Type) (outcome : Nat → Except DlError α),
      (∀ i, i < maxRetries → ∃ e, outcome i = Except.error e ∧
        breaksRetryLoop e = false) →
      (downloadFileWithRetry outcome).result = none ∧
      (downloadFileWithRetry outcome).attempts = maxRetries) ∧
    (∀ t tmp, breaksRetryLoop (DlError.netError t tmp) = (!t && !tmp) ∧
      breaksRetryLoop (DlError.urlError t tmp) = (!t && !tmp)) ∧
    (∀ msg, breaksRetryLoop (DlError.plain msg) = false) := by
  refine ⟨?_, ?_, ?_, ?_, fun t tmp => ⟨rfl, rfl⟩, fun msg => rfl⟩
  · intro α outcome
    exact retryLoop_attempts_le outcome maxRetries 0
  · intro α outcome
    exact retryLoop_delays_zero outcome 2
  · intro α outcome e h0 hb
    show retryLoop outcome 0 maxRetries = _
    simp [maxRetries, retryLoop, h0, hb]
  · intro α outcome h
    obtain ⟨e0, h0, hb0⟩ := h 0 (by decide)
    obtain ⟨e1, h1, hb1⟩ := h 1 (by decide)
    obtain ⟨e2, h2, hb2⟩ := h 2 (by decide)
    constructor
    · show (retryLoop outcome 0 maxRetries).result = none
      simp [maxRetries, retryLoop, h0, hb0, h1, hb1, h2, hb2]
    · show (retryLoop outcome 0 maxRetries).attempts = maxRetries
      simp [maxRetries, retryLoop, h0, hb0, h1, hb1, h2, hb2]

/-- Witness for c3_amended: a hard (non-timeout, non-temporary) net.Error on
    the first attempt aborts with a single attempt and no sleeps. -/
theorem c3_amended_witness :
    downloadFileWithRetry
        (fun _ => (Except.error (DlError.netError false false) :
          Except DlError Nat)) =
      ⟨none, 1, []⟩ :=
  c3_amended.2.2.1 Nat
    (fun _ => Except.error (DlError.netError false false))
    (DlError.netError false false) rfl rfl

/-! ## C2: SafeDownloadTrack (part_005 lines 1475-1553) and
    DownloadTrack (part_005 lines 659-682) -/

/-- A flat filesystem: each present path mapped to the byte count on disk. -/
abbrev FileSys := List (GoStr × Nat)

/-- Remove a path (os.Remove; no-op when absent). -/
def fsRemove : FileSys → GoStr → FileSys
  | [], _ => []
  | (a, b) :: rest, p =>
    if a = p then fsRemove rest p else (a, b) :: fsRemove rest p

/-- Create-or-overwrite a path with n bytes. -/
def fsSet (fs : FileSys) (p : GoStr) (n : Nat) : FileSys :=
  (p, n) :: fsRemove fs p

/-- Look a path up. -/
def fsLookup : FileSys → GoStr → Option Nat
  | [], _ => none
  | (a, b) :: rest, p => if a = p then some b else fsLookup rest p

/-- Whether a path exists. -/
def fsExists (fs : FileSys) (p : GoStr) : Bool :=
  (fsLookup fs p).isSome

/-- Error classes io.Copy failures are mapped to in SafeDownloadTrack. -/
inductive CopyErr
  | timeoutErr
  | unexpectedEof
  | otherNetErr
deriving DecidableEq, Repr

/-- The result of one SafeDownloadTrack/DownloadTrack run, by return path. -/
inductive DlResult
  | success
  | errDiskCheck
  | errCreate
  | errFetch
  | errCopy (k : CopyErr)
  | errSizeMismatch
  | errRename
deriving DecidableEq, Repr

/-- The environment one transfer runs against: whether the disk-space probe
    fails, whether creating the file fails, the downloadFileWithRetry outcome
    (ok carries resp.ContentLength), how many bytes io.Copy wrote, whether it
    then failed, and whether os.Rename fails. -/
structure DlEnv where
  diskCheckFails : Bool
  createFails : Bool
  fetch : Except DlError Int
  copyBytes : Nat
  copyErr : Option CopyErr
  renameFails : Bool
deriving Repr

/-- downloader.SafeDownloadTrack: disk-space probe when expectedSize > 0; open
    trackPath+".tmp" with O_CREATE|O_WRONLY|O_TRUNC; fetch with retry; copy
    the body into the temp file; on copy success validate the written size
    against totalBytes (resp.ContentLength, or expectedSize when that is
    non-positive); only then os.Rename the temp file onto trackPath. The
    deferred cleanup removes the temp file if it still exists at return.
    Returns (final filesystem, paths the body bytes were written to, result). -/
def SafeDownloadTrack (env : DlEnv) (fs : FileSys) (trackPath : GoStr)
    (expectedSize : Int) : FileSys × List GoStr × DlResult :=
  if expectedSize > 0 ∧ env.diskCheckFails = true then (fs, [], .errDiskCheck)
  else
    let tempPath := trackPath ++ ".tmp".data
    if env.createFails then (fsRemove fs tempPath, [], .errCreate)
    else
      let fs1 := fsSet fs tempPath 0
      match env.fetch with
      | .error _ => (fsRemove fs1 tempPath, [], .errFetch)
      | .ok contentLength =>
        let totalBytes := if contentLength ≤ 0 then expectedSize else contentLength
        let fs2 := fsSet fs1 tempPath env.copyBytes
        match env.copyErr with
        | some k => (fsRemove fs2 tempPath, [tempPath], .errCopy k)
        | none =>
          if totalBytes > 0 ∧ (env.copyBytes : Int) ≠ totalBytes then
            (fsRemove (fsRemove fs2 tempPath) tempPath, [tempPath], .errSizeMismatch)
          else if env.renameFails then
            (fsRemove (fsRemove fs2 tempPath) tempPath, [tempPath], .errRename)
          else
            (fsRemove (fsSet (fsRemove fs2 tempPath) trackPath env.copyBytes)
              tempPath, [tempPath], .success)

/-- downloader.DownloadTrack: opens trackPath itself (O_CREATE|O_WRONLY — no
    temp file, no size validation), fetches once via DownloadFile, and copies
    the body straight into the final path; a mid-copy failure returns the
    error with the partly-written final file still on disk. renameFails and
    diskCheckFails are unused on this path. -/
def DownloadTrack (env : DlEnv) (fs : FileSys) (trackPath : GoStr) :
    FileSys × List GoStr × DlResult :=
  if env.createFails then (fs, [], .errCreate)
  else
    let fs1 := fsSet fs trackPath 0
    match env.fetch with
    | .error _ => (fs1, [], .errFetch)
    | .ok _ =>
      let fs2 := fsSet fs1 trackPath env.copyBytes
      match env.copyErr with
      | some k => (fs2, [trackPath], .errCopy k)
      | none => (fs2, [trackPath], .success)

/-- Removing a path does not change lookups of a different path. -/
theorem fsRemove_lookup_ne {q p : GoStr} (h : q ≠ p) :
    ∀ fs : FileSys, fsLookup (fsRemove fs p) q = fsLookup fs q := by
  intro fs
  induction fs with
  | nil => rfl
  | cons e rest ih =>
    rcases e with ⟨a, b⟩
    by_cases hap : a = p
    · subst hap
      have haq : ¬ a = q := fun hq => h hq.symm
      simp only [fsRemove, if_pos rfl, fsLookup, if_neg haq]
      exact ih
    · simp only [fsRemove, if_neg hap, fsLookup]
      by_cases haq : a = q
      · simp only [if_pos haq]
      · simp only [if_neg haq]
        exact ih

/-- A removed path is gone. -/
theorem fsRemove_lookup_self (p : GoStr) :
    ∀ fs : FileSys, fsLookup (fsRemove fs p) p = none := by
  intro fs
  induction fs with
  | nil => rfl
  | cons e rest ih =>
    rcases e with ⟨a, b⟩
    by_cases hap : a = p
    · simp only [fsRemove, if_pos hap]
      exact ih
    · simp only [fsRemove, if_neg hap, fsLookup, if_neg hap]
      exact ih

/-- A freshly set path exists. -/
theorem fsExists_set_self (fs : FileSys) (p : GoStr) (n : Nat) :
    fsExists (fsSet fs p n) p = true := by
  simp [fsExists, fsSet, fsLookup]

/-- Setting one path does not change existence of a different path. -/
theorem fsExists_set_ne {q p : GoStr} (h : q ≠ p) (fs : FileSys) (n : Nat) :
    fsExists (fsSet fs p n) q = fsExists fs q := by
  have hpq : ¬ p = q := fun hx => h hx.symm
  simp only [fsExists, fsSet, fsLookup, if_neg hpq, fsRemove_lookup_ne h]

/-- Removing one path does not change existence of a different path. -/
theorem fsExists_remove_ne {q p : GoStr} (h : q ≠ p) (fs : FileSys) :
    fsExists (fsRemove fs p) q = fsExists fs q := by
  simp only [fsExists, fsRemove_lookup_ne h]

/-- A removed path does not exist. -/
theorem fsExists_remove_self (fs : FileSys) (p : GoStr) :
    fsExists (fsRemove fs p) p = false := by
  simp [fsExists, fsRemove_lookup_self]

/-- No string equals itself with ".tmp" appended. -/
theorem ne_append_tmp (p : GoStr) : p ≠ p ++ ".tmp".data := by
  intro h
  have := congrArg List.length h
  simp at this

/-- C2: the claim as stated is false on the code. DownloadTrack — transfer
    code of this repository, and the function ProcessTrack actually calls for
    tracks — writes the downloaded bytes directly to the target path, and a
    transfer that fails mid-copy (truncated to 5 of 100 bytes here) leaves the
    partly-written final file present on disk rather than absent. -/
theorem c2_counterexample :
    DownloadTrack
        ⟨false, false, Except.ok 100, 5, some CopyErr.otherNetErr, false⟩
        [] "t.flac".data =
      ([("t.flac".data, 5)],
        ["t.flac".data], DlResult.errCopy CopyErr.otherNetErr) ∧
    fsExists
      (DownloadTrack
        ⟨false, false, Except.ok 100, 5, some CopyErr.otherNetErr, false⟩
        [] "t.flac".data).1 "t.flac".data = true ∧
    "t.flac".data ∈
      (DownloadTrack
        ⟨false, false, Except.ok 100, 5, some CopyErr.otherNetErr, false⟩
        [] "t.flac".data).2.1 := by
  refine ⟨rfl, rfl, ?_⟩
  simp [DownloadTrack, fsSet, fsRemove]

/-- C2 (amended): SafeDownloadTrack does satisfy the claimed contract — body
    bytes are written only to trackPath+".tmp"; every failing run leaves a
    previously-absent target path absent; and a successful run (the only path
    that renames onto trackPath) requires the copy to have succeeded and the
    size validation to have passed, leaving the target present and the temp
    file gone. DownloadTrack, however, writes directly to the target. -/
theorem c2_amended (env : DlEnv) (fs : FileSys) (trackPath : GoStr)
    (expectedSize : Int)
    (habsent : fsExists fs trackPath = false) :
    (∀ p ∈ (SafeDownloadTrack env fs trackPath expectedSize).2.1,
      p = trackPath ++ ".tmp".data) ∧
    ((SafeDownloadTrack env fs trackPath expectedSize).2.2 ≠ DlResult.success →
      fsExists (SafeDownloadTrack env fs trackPath expectedSize).1 trackPath =
        false) ∧
    ((SafeDownloadTrack env fs trackPath expectedSize).2.2 = DlResult.success →
      env.copyErr = none ∧
      (∃ contentLength, env.fetch = Except.ok contentLength ∧
        ¬ ((if contentLength ≤ 0 then expectedSize else contentLength) > 0 ∧
          (env.copyBytes : Int) ≠
            (if contentLength ≤ 0 then expectedSize else contentLength))) ∧
      fsExists (SafeDownloadTrack env fs trackPath expectedSize).1 trackPath =
        true ∧
      fsExists (SafeDownloadTrack env fs trackPath expectedSize).1
        (trackPath ++ ".tmp".data) = false) := by
  have hne : trackPath ≠ trackPath ++ ".tmp".data := ne_append_tmp trackPath
  by_cases hdisk : expectedSize > 0 ∧ env.diskCheckFails = true
  · simp only [SafeDownloadTrack, if_pos hdisk]
    refine ⟨fun p hp => absurd hp (List.not_mem_nil p), fun _ => habsent, fun habs => by cases habs⟩
  · simp only [SafeDownloadTrack, if_neg hdisk]
    by_cases hcr : env.createFails
    · simp only [if_pos hcr]
      refine ⟨fun p hp => absurd hp (List.not_mem_nil p), fun _ => ?_, fun habs => by cases habs⟩
      rw [fsExists_remove_ne hne]
      exact habsent
    · simp only [if_neg hcr]
      cases hfetch : env.fetch with
      | error e =>
        refine ⟨fun p hp => absurd hp (List.not_mem_nil p), fun _ => ?_, fun habs => by cases habs⟩
        rw [fsExists_remove_ne hne, fsExists_set_ne hne]
        exact habsent
      | ok contentLength =>
        cases hcopy : env.copyErr with
        | some k =>
          refine ⟨?_, fun _ => ?_, fun habs => by cases habs⟩
          · intro p hp
            simpa using hp
          · rw [fsExists_remove_ne hne, fsExists_set_ne hne,
              fsExists_set_ne hne]
            exact habsent
        | none =>
          by_cases hsz : (if contentLength ≤ 0 then expectedSize
              else contentLength) > 0 ∧
              (env.copyBytes : Int) ≠
                (if contentLength ≤ 0 then expectedSize else contentLength)
          · simp only [if_pos hsz]
            refine ⟨?_, fun _ => ?_, fun habs => by cases habs⟩
            · intro p hp
              simpa using hp
            · rw [fsExists_remove_ne hne, fsExists_remove_ne hne,
                fsExists_set_ne hne, fsExists_set_ne hne]
              exact habsent
          · simp only [if_neg hsz]
            by_cases hrn : env.renameFails
            · simp only [if_pos hrn]
              refine ⟨?_, fun _ => ?_, fun habs => by cases habs⟩
              · intro p hp
                simpa using hp
              · rw [fsExists_remove_ne hne, fsExists_remove_ne hne,
                  fsExists_set_ne hne, fsExists_set_ne hne]
                exact habsent
            · simp only [if_neg hrn]
              refine ⟨?_, fun habs => (habs rfl).elim, fun _ => ?_⟩
              · intro p hp
                simpa using hp
              · refine ⟨by trivial, ⟨contentLength, by trivial, hsz⟩, ?_, ?_⟩
                · rw [fsExists_remove_ne hne, fsExists_set_self]
                · rw [fsExists_remove_self]

/-- Witness for c2_amended: a clean 100-byte transfer onto an absent target
    leaves the target present and the temp file gone. -/
theorem c2_amended_witness :
    fsExists
      (SafeDownloadTrack ⟨false, false, Except.ok 100, 100, none, false⟩
        [] "t.flac".data 100).1 "t.flac".data = true ∧
    fsExists
      (SafeDownloadTrack ⟨false, false, Except.ok 100, 100, none, false⟩
        [] "t.flac".data 100).1 ("t.flac".data ++ ".tmp".data) = false :=
  ⟨((c2_amended ⟨false, false, Except.ok 100, 100, none, false⟩ [] "t.flac".data
      100 rfl).2.2 rfl).2.2.1,
   ((c2_amended ⟨false, false, Except.ok 100, 100, none, false⟩ [] "t.flac".data
      100 rfl).2.2 rfl).2.2.2⟩

/-! ## C10: GetKey (part_005 lines 931-950) and
    DecryptTrack (part_005 lines 953-969) -/

/-- Outcome of DecryptTrack: the decrypted bytes, a returned Go error, or a
    Go runtime panic. -/
inductive DecOutcome
  | decOk (plaintext : List Nat)
  | goError (msg : GoStr)
  | panicked (msg : GoStr)
deriving DecidableEq, Repr

/-- downloader.DecryptTrack: read temp_enc.ts (fileRead: none models a read
    error); aes.NewCipher returns KeySizeError unless the key is 16, 24 or 32
    bytes; cipher.NewCBCDecrypter panics when len(iv) differs from the 16-byte
    AES block size; CryptBlocks panics when the ciphertext length is not a
    multiple of the block size; otherwise the whole buffer is CBC-decrypted.
    cbc is the AES-CBC decryption map itself (crypto/aes and crypto/cipher,
    external primitives), taken as a parameter. -/
def DecryptTrack (cbc : List Nat → List Nat → List Nat → List Nat)
    (fileRead : Option (List Nat)) (key iv : List Nat) : DecOutcome :=
  match fileRead with
  | none => .goError "read temp_enc.ts failed".data
  | some encData =>
    if ¬ (key.length = 16 ∨ key.length = 24 ∨ key.length = 32) then
      .goError "crypto/aes: invalid key size".data
    else if iv.length ≠ 16 then
      .panicked "cipher.NewCBCDecrypter: IV length must equal block size".data
    else if encData.length % 16 ≠ 0 then
      .panicked "crypto/cipher: input not full blocks".data
    else .decOk (cbc key iv encData)

/-- downloader.GetKey: a non-200 status is an error; io.ReadFull into a
    16-byte buffer errors when fewer than 16 body bytes arrive, else yields
    exactly the first 16 bytes. -/
def GetKey (status : Nat) (body : List Nat) : Except GoStr (List Nat) :=
  if status ≠ 200 then .error "bad status".data
  else if body.length < 16 then .error "unexpected EOF".data
  else .ok (body.take 16)

/-- C10: DecryptTrack returns a Go error only on a ciphertext-file read
    failure or an invalid key length; with a well-formed key and IV it panics
    in CryptBlocks on every ciphertext whose length is not a multiple of 16,
    so non-panicking operation presupposes full blocks; and every key GetKey
    returns has exactly 16 bytes, making DecryptTrack's invalid-key-size error
    branch unreachable for keys GetKey supplies. -/
theorem c10_decrypt_contract :
    (∀ cbc fileRead key iv msg,
      DecryptTrack cbc fileRead key iv = DecOutcome.goError msg →
      fileRead = none ∨
        ¬ (key.length = 16 ∨ key.length = 24 ∨ key.length = 32)) ∧
    (∀ cbc encData key iv, key.length = 16 → iv.length = 16 →
      encData.length % 16 ≠ 0 →
      DecryptTrack cbc (some encData) key iv =
        DecOutcome.panicked "crypto/cipher: input not full blocks".data) ∧
    (∀ status body key, GetKey status body = Except.ok key →
      key.length = 16) ∧
    (∀ cbc fileRead iv status body key, GetKey status body = Except.ok key →
      DecryptTrack cbc fileRead key iv ≠
        DecOutcome.goError "crypto/aes: invalid key size".data) := by
  have hkeylen : ∀ status body key, GetKey status body = Except.ok key →
      key.length = 16 := by
    intro status body key h
    by_cases hs : status ≠ 200
    · simp [GetKey, hs] at h
    · by_cases hb : body.length < 16
      · simp [GetKey, hs, hb] at h
      · simp only [GetKey, if_neg hs, if_neg hb] at h
        cases h
        simp only [List.length_take]
        omega
  refine ⟨?_, ?_, hkeylen, ?_⟩
  · intro cbc fileRead key iv msg h
    cases fileRead with
    | none => exact Or.inl rfl
    | some encData =>
      by_cases hk : ¬ (key.length = 16 ∨ key.length = 24 ∨ key.length = 32)
      · exact Or.inr hk
      · exfalso
        by_cases hiv : iv.length ≠ 16
        · simp [DecryptTrack, hk, hiv] at h
        · by_cases henc : encData.length % 16 ≠ 0
          · simp [DecryptTrack, hk, hiv, henc] at h
          · simp [DecryptTrack, hk, hiv, henc] at h
  · intro cbc encData key iv hk hiv henc
    have hk' : ¬ ¬ (key.length = 16 ∨ key.length = 24 ∨ key.length = 32) := by
      simp [hk]
    have hiv' : ¬ iv.length ≠ 16 := by simp [hiv]
    simp [DecryptTrack, hk', hiv', henc]
  · intro cbc fileRead iv status body key hkey h
    have h16 := hkeylen status body key hkey
    cases fileRead with
    | none =>
      simp only [DecryptTrack] at h
      cases h
    | some encData =>
      have hk' : ¬ ¬ (key.length = 16 ∨ key.length = 24 ∨ key.length = 32) := by
        simp [h16]
      simp only [DecryptTrack, if_neg hk'] at h
      by_cases hiv : iv.length ≠ 16
      · rw [if_pos hiv] at h
        cases h
      · rw [if_neg hiv] at h
        by_cases henc : encData.length % 16 ≠ 0
        · rw [if_pos henc] at h
          cases h
        · rw [if_neg henc] at h
          cases h

/-- Witness for c10_decrypt_contract: a 16-byte key from GetKey and a 17-byte
    ciphertext panic in CryptBlocks. -/
theorem c10_decrypt_contract_witness :
    (List.replicate 16 (7 : Nat)).length = 16 ∧
    DecryptTrack (fun _ _ enc => enc) (some (List.replicate 17 (1 : Nat)))
        (List.replicate 16 (7 : Nat)) (List.replicate 16 (0 : Nat)) =
      DecOutcome.panicked "crypto/cipher: input not full blocks".data :=
  ⟨c10_decrypt_contract.2.2.1 200 (List.replicate 16 (7 : Nat))
     (List.replicate 16 (7 : Nat)) rfl,
   c10_decrypt_contract.2.1 (fun _ _ enc => enc) (List.replicate 17 (1 : Nat))
     (List.replicate 16 (7 : Nat)) (List.replicate 16 (0 : Nat))
     (by decide) (by decide) (by decide)⟩

end NugsDL
